import Mathlib

/-!
Formal model of the offline-first job outbox of the Threads warehousing client.

Two implementations of the queue exist in the repository and both are embedded
here:

* `Lib` models the in-memory queue in src/src/lib/jobQueue.ts (class JobQueue
  over a Map of jobs).
* `El` models the persistent queue in src/electron/queue/JobQueue.ts (class
  JobQueue over the outbox_jobs SQLite table; SQL statements are modelled by
  their standard semantics over a list of rows).

Timestamps are modelled as natural numbers (the code stores ISO-8601 strings
whose lexicographic order agrees with chronological order).  The value of
Math.random based jitter is passed in as an explicit parameter.  Executor
outcomes (the handler succeeding or throwing) are passed in as explicit
outcome values, since the handlers perform external I/O.
-/

/-- The five job statuses of both implementations. -/
inductive JobStatus where
  | queued
  | running
  | succeeded
  | failed
  | dead
deriving DecidableEq, Repr

/-- The closed set of job types. -/
inductive JobType where
  | create_fulfillment
  | create_label
  | void_label
  | inventory_adjust
  | event_log
deriving DecidableEq, Repr

namespace Lib

/-- A job record of src/src/lib/jobQueue.ts (interface Job).  The payload is
kept opaque as a string, as no queue operation inspects it; the result is
likewise opaque. -/
structure Job where
  id : String
  type : JobType
  payload : String
  idempotencyKey : String
  status : JobStatus
  attempts : Nat
  maxAttempts : Nat
  nextRunAt : Nat
  createdAt : Nat
  updatedAt : Nat
  error : Option String
  result : Option String
deriving DecidableEq, Repr

/-- Queue configuration (interface JobQueueConfig). -/
structure JobQueueConfig where
  maxAttempts : Nat
  backoffMultiplier : Nat
  maxBackoffMs : Nat
  jitterMs : Nat
  concurrency : Nat
deriving DecidableEq, Repr

/-- The constructor defaults: maxAttempts 6, multiplier 2, cap 30 minutes,
jitter 1 second, concurrency 2. -/
def defaultConfig : JobQueueConfig :=
  { maxAttempts := 6
    backoffMultiplier := 2
    maxBackoffMs := 30 * 60 * 1000
    jitterMs := 1000
    concurrency := 2 }

/-- The queue state: the Map of jobs in insertion order.  Map.set appends a
fresh key, Map iteration visits insertion order, so a list is a faithful
model. -/
abbrev QueueState := List Job

/-- findJobByIdempotencyKey: first job whose key matches, in iteration
order. -/
def findJobByIdempotencyKey (jobs : QueueState) (idempotencyKey : String) : Option Job :=
  jobs.find? (fun j => decide (j.idempotencyKey = idempotencyKey))

/-- The deterministic part of calculateNextRunTime: min(maxBackoffMs,
backoffMultiplier ^ attempts * 1000). -/
def baseDelay (cfg : JobQueueConfig) (attempts : Nat) : Nat :=
  min cfg.maxBackoffMs (cfg.backoffMultiplier ^ attempts * 1000)

/-- calculateNextRunTime: now plus base delay plus jitter (the random jitter
sample is an explicit argument). -/
def calculateNextRunTime (cfg : JobQueueConfig) (attempts : Nat) (now jitter : Nat) : Nat :=
  now + (baseDelay cfg attempts + jitter)

/-- The fresh job record built by addJob. -/
def mkJob (jobId : String) (type : JobType) (payload : String) (idempotencyKey : String)
    (cfg : JobQueueConfig) (now : Nat) : Job :=
  { id := jobId
    type := type
    payload := payload
    idempotencyKey := idempotencyKey
    status := JobStatus.queued
    attempts := 0
    maxAttempts := cfg.maxAttempts
    nextRunAt := now
    createdAt := now
    updatedAt := now
    error := none
    result := none }

/-- addJob: if a job with the same idempotency key exists and has succeeded,
return its id without touching the state; otherwise create and store a fresh
queued job (the generated id and current time are explicit arguments). -/
def addJob (jobs : QueueState) (cfg : JobQueueConfig) (jobId : String) (type : JobType)
    (payload : String) (idempotencyKey : String) (now : Nat) : String × QueueState :=
  match findJobByIdempotencyKey jobs idempotencyKey with
  | some existingJob =>
    if existingJob.status = JobStatus.succeeded then
      (existingJob.id, jobs)
    else
      (jobId, jobs ++ [mkJob jobId type payload idempotencyKey cfg now])
  | none => (jobId, jobs ++ [mkJob jobId type payload idempotencyKey cfg now])

/-- Aggregate statistics (interface JobStats). -/
structure JobStats where
  total : Nat
  queued : Nat
  running : Nat
  succeeded : Nat
  failed : Nat
  dead : Nat
deriving DecidableEq, Repr

/-- One iteration of the getStats loop: stats[job.status]++. -/
def bumpStat (stats : JobStats) (status : JobStatus) : JobStats :=
  match status with
  | JobStatus.queued => { stats with queued := stats.queued + 1 }
  | JobStatus.running => { stats with running := stats.running + 1 }
  | JobStatus.succeeded => { stats with succeeded := stats.succeeded + 1 }
  | JobStatus.failed => { stats with failed := stats.failed + 1 }
  | JobStatus.dead => { stats with dead := stats.dead + 1 }

/-- getStats: total is the Map size, then one pass increments the bucket of
each job. -/
def getStats (jobs : QueueState) : JobStats :=
  jobs.foldl (fun stats j => bumpStat stats j.status)
    { total := jobs.length, queued := 0, running := 0, succeeded := 0, failed := 0, dead := 0 }

/-- In-place mutation of the job object with a given id, as the found object
is mutated through the Map. -/
def replaceById (jobs : QueueState) (jobId : String) (newJob : Job) : QueueState :=
  jobs.map (fun j => if decide (j.id = jobId) then newJob else j)

/-- retryJob: only a job in status failed with attempts below maxAttempts is
re-queued; its attempts counter is incremented and nextRunAt recomputed.  A
failed job at the cap is moved to dead.  Anything else returns false and
leaves the state alone. -/
def retryJob (jobs : QueueState) (cfg : JobQueueConfig) (jobId : String) (now jitter : Nat) :
    Bool × QueueState :=
  match jobs.find? (fun j => decide (j.id = jobId)) with
  | none => (false, jobs)
  | some job =>
    if job.status = JobStatus.failed then
      if job.maxAttempts ≤ job.attempts then
        (false, replaceById jobs jobId { job with status := JobStatus.dead, updatedAt := now })
      else
        (true, replaceById jobs jobId
          { job with
            status := JobStatus.queued
            attempts := job.attempts + 1
            nextRunAt := calculateNextRunTime cfg (job.attempts + 1) now jitter
            updatedAt := now
            error := none })
    else
      (false, jobs)

/-- clearDeadJobs: delete every job in status dead, returning how many were
removed. -/
def clearDeadJobs (jobs : QueueState) : Nat × QueueState :=
  ((jobs.filter (fun j => decide (j.status = JobStatus.dead))).length,
   jobs.filter (fun j => decide (¬ j.status = JobStatus.dead)))

/-- Outcome of one executor run: the handler returned a result or threw an
error with the given message. -/
inductive ExecOutcome where
  | ok (result : String)
  | err (message : String)
deriving DecidableEq, Repr

/-- The state update processJob applies to one job after its handler finished:
success stores the result and marks succeeded; a throw increments attempts and
either dead-letters at the maxAttempts cap or marks the job failed with a
backoff-delayed nextRunAt. -/
def processJobOutcome (cfg : JobQueueConfig) (job : Job) (outcome : ExecOutcome)
    (now jitter : Nat) : Job :=
  match outcome with
  | ExecOutcome.ok result =>
    { job with status := JobStatus.succeeded, result := some result, updatedAt := now }
  | ExecOutcome.err message =>
    if job.maxAttempts ≤ job.attempts + 1 then
      { job with
        attempts := job.attempts + 1
        error := some message
        updatedAt := now
        status := JobStatus.dead }
    else
      { job with
        attempts := job.attempts + 1
        error := some message
        updatedAt := now
        status := JobStatus.failed
        nextRunAt := calculateNextRunTime cfg (job.attempts + 1) now jitter }

/-- One selected job of a processQueue pass run to completion: processQueue
only hands over jobs that are queued and due (nextRunAt not in the future),
and processJob then applies the outcome of the executor run. -/
def processStep (jobs : QueueState) (cfg : JobQueueConfig) (jobId : String)
    (outcome : ExecOutcome) (now jitter : Nat) : QueueState :=
  match jobs.find? (fun j => decide (j.id = jobId)) with
  | none => jobs
  | some job =>
    if job.status = JobStatus.queued ∧ job.nextRunAt ≤ now then
      replaceById jobs jobId (processJobOutcome cfg job outcome now jitter)
    else
      jobs

end Lib

namespace El

/-- A row of the outbox_jobs table of src/electron/queue/JobQueue.ts
(interface OutboxJob).  The payload is kept opaque. -/
structure OutboxJob where
  id : String
  type : JobType
  payload_json : String
  idempotency_key : String
  status : JobStatus
  attempts : Nat
  next_run_at : Nat
  created_at : Nat
  updated_at : Nat
  error_message : Option String
  last_attempt_at : Option Nat
deriving DecidableEq, Repr

/-- The queue state: the rows of the outbox_jobs table. -/
abbrev Store := List OutboxJob

/-- The fixed backoff table, in seconds: 1m, 5m, 15m, 30m, 1h, 2h. -/
def backoffSchedule : List Nat := [60, 300, 900, 1800, 3600, 7200]

/-- The concurrency cap of the electron queue (field maxConcurrency). -/
def maxConcurrency : Nat := 2

/-- Character-list test that the first list starts with the pattern. -/
def startsWithChars : List Char → List Char → Bool
  | [], _ => true
  | _ :: _, [] => false
  | a :: as, b :: bs => decide (a = b) && startsWithChars as bs

/-- Character-list test that the pattern occurs somewhere in the list. -/
def hasSubChars : List Char → List Char → Bool
  | pat, [] => pat.isEmpty
  | pat, b :: bs => startsWithChars pat (b :: bs) || hasSubChars pat bs

/-- Model of the JavaScript String.includes used by the retryability
classifier. -/
def strIncludes (s pat : String) : Bool :=
  hasSubChars pat.toList s.toList

/-- isRetryableError, classifying an error by substrings of its message:
network/timeout, 429/rate limit and 5xx are retryable; 401/403 and 400/404 are
not; anything unclassified defaults to retryable.  (The null-error guard of
the source is outside this model because a thrown handler error always carries
a message here.) -/
def isRetryableError (errorMessage : String) : Bool :=
  if strIncludes errorMessage "network" || strIncludes errorMessage "timeout" then
    true
  else if strIncludes errorMessage "429" || strIncludes errorMessage "rate limit" then
    true
  else if strIncludes errorMessage "500" || strIncludes errorMessage "502"
      || strIncludes errorMessage "503" then
    true
  else if strIncludes errorMessage "401" || strIncludes errorMessage "403" then
    false
  else if strIncludes errorMessage "400" || strIncludes errorMessage "404" then
    false
  else
    true

/-- getJobByIdempotencyKey: SELECT by idempotency_key (the first matching row;
the schema declares the column UNIQUE). -/
def getJobByIdempotencyKey (jobs : Store) (idempotencyKey : String) : Option OutboxJob :=
  jobs.find? (fun j => decide (j.idempotency_key = idempotencyKey))

/-- getJobById (via getJobHistory): SELECT by primary key id. -/
def getJobById (jobs : Store) (jobId : String) : Option OutboxJob :=
  jobs.find? (fun j => decide (j.id = jobId))

/-- The reply of addJob (interface JobResult, error cases aside). -/
structure AddJobResult where
  success : Bool
  jobId : String
deriving DecidableEq, Repr

/-- addJob: an existing row with the same idempotency key short-circuits the
insert and replies with the existing id, whatever its status; otherwise the
incoming job data is inserted with a generated id and creation timestamps
(generated id and current time are explicit arguments). -/
def addJob (jobs : Store) (newId : String) (type : JobType) (payload : String)
    (idempotency_key : String) (status : JobStatus) (attempts : Nat) (next_run_at : Nat)
    (now : Nat) : AddJobResult × Store :=
  match getJobByIdempotencyKey jobs idempotency_key with
  | some existingJob => ({ success := true, jobId := existingJob.id }, jobs)
  | none =>
    let job : OutboxJob :=
      { id := newId
        type := type
        payload_json := payload
        idempotency_key := idempotency_key
        status := status
        attempts := attempts
        next_run_at := next_run_at
        created_at := now
        updated_at := now
        error_message := none
        last_attempt_at := none }
    ({ success := true, jobId := newId }, jobs ++ [job])

/-- Insertion into a list kept sorted by created_at. -/
def insertByCreatedAt (job : OutboxJob) : List OutboxJob → List OutboxJob
  | [] => [job]
  | k :: rest =>
    if job.created_at ≤ k.created_at then job :: k :: rest
    else k :: insertByCreatedAt job rest

/-- Insertion sort by created_at, the model of ORDER BY created_at ASC. -/
def sortByCreatedAt : List OutboxJob → List OutboxJob
  | [] => []
  | job :: rest => insertByCreatedAt job (sortByCreatedAt rest)

/-- The due-job selection query,
SELECT * FROM outbox_jobs WHERE status = queued AND next_run_at <= now
ORDER BY created_at ASC LIMIT limit
(getNextJobToProcess issues it with limit 1). -/
def findDue (jobs : Store) (now : Nat) (limit : Nat) : List OutboxJob :=
  (sortByCreatedAt
    (jobs.filter (fun j => decide (j.status = JobStatus.queued) && decide (j.next_run_at ≤ now)))).take
    limit

/-- getNextJobToProcess: the first row of the due-job selection. -/
def getNextJobToProcess (jobs : Store) (now : Nat) : Option OutboxJob :=
  (findDue jobs now 1).head?

/-- The outcome record returned by processJob: success flag, error message and
retryability classification. -/
structure ProcessResult where
  success : Bool
  error : Option String
  retryable : Bool
deriving DecidableEq, Repr

/-- The outcome processJob builds when the handler of a job throws: failure
with the thrown message, classified by isRetryableError. -/
def handlerFailure (message : String) : ProcessResult :=
  { success := false, error := some message, retryable := isRetryableError message }

/-- The final row update processNextJob applies to the processed job: success
marks it succeeded (updateJobStatus); a retryable failure with attempts below
the table length increments attempts and re-queues it with the table delay
(updateJobForRetry); otherwise the row goes dead keeping its attempts
(updateJobStatus with the error). -/
def applyProcessResult (job : OutboxJob) (result : ProcessResult) (now : Nat) : OutboxJob :=
  if result.success then
    { job with
      status := JobStatus.succeeded
      updated_at := now
      error_message := none
      last_attempt_at := some now }
  else if result.retryable && decide (job.attempts < backoffSchedule.length) then
    { job with
      status := JobStatus.queued
      attempts := job.attempts + 1
      next_run_at := now + backoffSchedule.getD ((job.attempts + 1) - 1) 0 * 1000
      updated_at := now
      error_message := result.error
      last_attempt_at := some now }
  else
    { job with
      status := JobStatus.dead
      updated_at := now
      error_message := result.error
      last_attempt_at := some now }

/-- UPDATE of the row with a given id. -/
def replaceById (jobs : Store) (jobId : String) (newJob : OutboxJob) : Store :=
  jobs.map (fun j => if decide (j.id = jobId) then newJob else j)

/-- One processNextJob pass with the executor outcome given: the selected due
job (if any) has the outcome applied to its row.  The transient running mark
between selection and completion is covered by the scheduler transition system
below. -/
def processNextJobStep (jobs : Store) (result : ProcessResult) (now : Nat) : Store :=
  match getNextJobToProcess jobs now with
  | none => jobs
  | some job => replaceById jobs job.id (applyProcessResult job result now)

/-- The reply of retryJob. -/
inductive RetryJobResult where
  | ok
  | notFound
  | notRetryable
deriving DecidableEq, Repr

/-- updateJobForRetry: UPDATE setting status queued, the given attempts and
next_run_at, and the bookkeeping columns. -/
def updateJobForRetry (jobs : Store) (jobId : String) (attempts : Nat) (next_run_at : Nat)
    (errorMessage : Option String) (now : Nat) : Store :=
  jobs.map (fun j =>
    if decide (j.id = jobId) then
      { j with
        status := JobStatus.queued
        attempts := attempts
        next_run_at := next_run_at
        updated_at := now
        error_message := errorMessage
        last_attempt_at := some now }
    else j)

/-- retryJob: a missing id is not found; a dead job is reset to queued with
attempts 0 and next_run_at now; any other status is not retryable and the
store is untouched. -/
def retryJob (jobs : Store) (jobId : String) (now : Nat) : RetryJobResult × Store :=
  match getJobById jobs jobId with
  | none => (RetryJobResult.notFound, jobs)
  | some job =>
    if job.status = JobStatus.dead then
      (RetryJobResult.ok, updateJobForRetry jobs jobId 0 now none now)
    else
      (RetryJobResult.notRetryable, jobs)

/-- clearDeadJobs: DELETE FROM outbox_jobs WHERE status = dead, returning the
number of rows removed. -/
def clearDeadJobs (jobs : Store) : Nat × Store :=
  ((jobs.filter (fun j => decide (j.status = JobStatus.dead))).length,
   jobs.filter (fun j => decide (¬ j.status = JobStatus.dead)))

/-- Aggregate statistics (interface QueueStats, optional columns aside). -/
structure QueueStats where
  total : Nat
  queued : Nat
  running : Nat
  succeeded : Nat
  failed : Nat
  dead : Nat
deriving DecidableEq, Repr

/-- COUNT(*) of the rows in one status group. -/
def countByStatus (jobs : Store) (status : JobStatus) : Nat :=
  (jobs.filter (fun j => decide (j.status = status))).length

/-- getStats: the GROUP BY status query sets each bucket to the count of its
group and accumulates total as the sum over the groups. -/
def getStats (jobs : Store) : QueueStats :=
  { total := countByStatus jobs JobStatus.queued + countByStatus jobs JobStatus.running
      + countByStatus jobs JobStatus.succeeded + countByStatus jobs JobStatus.failed
      + countByStatus jobs JobStatus.dead
    queued := countByStatus jobs JobStatus.queued
    running := countByStatus jobs JobStatus.running
    succeeded := countByStatus jobs JobStatus.succeeded
    failed := countByStatus jobs JobStatus.failed
    dead := countByStatus jobs JobStatus.dead }

end El

/-- In-flight dispatcher state: the stored jobs together with the set of job
ids currently held by the executor (field running of the lib queue, field
activeJobs of the electron queue). -/
structure SchedState where
  jobs : Lib.QueueState
  running : List String
deriving DecidableEq, Repr

/-- One scheduler event, with the guards both dispatch loops enforce.  A job
is handed to the executor only when it is queued, due, the running set is
below the concurrency cap (processQueue breaks at the cap, the electron tick
skips at the cap) and its id is not already in the running set (processJob
returns early on an id already present); the handoff marks the job running
and records its id.  A finished run applies the executor outcome to the job
and releases its id. -/
inductive SchedStep (cfg : Lib.JobQueueConfig) : SchedState → SchedState → Prop where
  | start (s : SchedState) (job : Lib.Job) (now : Nat)
      (hmem : job ∈ s.jobs) (hq : job.status = JobStatus.queued)
      (hdue : job.nextRunAt ≤ now)
      (hcap : s.running.length < cfg.concurrency)
      (hnew : job.id ∉ s.running) :
      SchedStep cfg s
        ⟨Lib.replaceById s.jobs job.id { job with status := JobStatus.running, updatedAt := now },
         job.id :: s.running⟩
  | finish (s : SchedState) (job : Lib.Job) (outcome : Lib.ExecOutcome) (now jitter : Nat)
      (hmem : job ∈ s.jobs) (hrun : job.id ∈ s.running) :
      SchedStep cfg s
        ⟨Lib.replaceById s.jobs job.id (Lib.processJobOutcome cfg job outcome now jitter),
         s.running.erase job.id⟩

/-- Reachability of a scheduler state by a sequence of scheduler events. -/
inductive SchedReachable (cfg : Lib.JobQueueConfig) : SchedState → SchedState → Prop where
  | refl (s : SchedState) : SchedReachable cfg s s
  | step (s t u : SchedState) (h : SchedReachable cfg s t) (hs : SchedStep cfg t u) :
      SchedReachable cfg s u

/-- A fresh queued job of the in-memory queue, used in concrete scenarios. -/
def libFreshJob : Lib.Job :=
  Lib.mkJob "job1" JobType.create_label "p" "k" Lib.defaultConfig 0

/-- A dead job of the in-memory queue. -/
def libDeadJob : Lib.Job :=
  { libFreshJob with status := JobStatus.dead }

/-- A succeeded job of the in-memory queue. -/
def libSucceededJob : Lib.Job :=
  { libFreshJob with status := JobStatus.succeeded, result := some "r" }

/-- A due queued row of the persistent queue, created at time 0. -/
def elJobA : El.OutboxJob :=
  { id := "A"
    type := JobType.create_label
    payload_json := "p"
    idempotency_key := "ka"
    status := JobStatus.queued
    attempts := 0
    next_run_at := 0
    created_at := 0
    updated_at := 0
    error_message := none
    last_attempt_at := none }

/-- A due queued row of the persistent queue, created at time 1. -/
def elJobB : El.OutboxJob :=
  { elJobA with id := "B", idempotency_key := "kb", created_at := 1 }

/-- A succeeded row of the persistent queue. -/
def elSucceededJob : El.OutboxJob :=
  { elJobA with id := "S", idempotency_key := "ks", status := JobStatus.succeeded }

/-- A dead row of the persistent queue. -/
def elDeadJob : El.OutboxJob :=
  { elJobA with id := "D", idempotency_key := "kd", status := JobStatus.dead, attempts := 6 }

/-- A row under execution, used in the backoff scenario. -/
def c7Job : El.OutboxJob :=
  { elJobA with id := "R", idempotency_key := "kr", status := JobStatus.running, next_run_at := 4 }

/-- A retryable failure outcome. -/
def c7Result : El.ProcessResult :=
  { success := false, error := some "503 Service Unavailable", retryable := true }

/-- The idempotency key of the duplicate-key scenario. -/
def c1Key : String := "label_O1"

/-- Scenario: first enqueue with the key. -/
def c1State1 : Lib.QueueState :=
  (Lib.addJob [] Lib.defaultConfig "job1" JobType.create_label "p1" c1Key 0).2

/-- Scenario: second enqueue with the same key while the first job is still
queued; the in-memory addJob creates a second job for the key. -/
def c1State2 : Lib.QueueState :=
  (Lib.addJob c1State1 Lib.defaultConfig "job2" JobType.create_label "p1" c1Key 1).2

/-- Scenario: the first job runs and fails with a timeout. -/
def c1State3 : Lib.QueueState :=
  Lib.processStep c1State2 Lib.defaultConfig "job1" (Lib.ExecOutcome.err "timeout") 2 0

/-- Scenario: the second job runs and succeeds. -/
def c1State4 : Lib.QueueState :=
  Lib.processStep c1State3 Lib.defaultConfig "job2" (Lib.ExecOutcome.ok "r") 3 0

/-- A state of the in-memory queue holding one queued (non-terminal) job with
key k1. -/
def c2State : Lib.QueueState :=
  (Lib.addJob [] Lib.defaultConfig "job1" JobType.create_label "p1" "k1" 0).2

/-- find? returns the designated element when it is a member, satisfies the
test and is the only member doing so. -/
theorem find?_eq_some_of_unique {α : Type} (p : α → Bool) :
    ∀ (l : List α) (a : α), a ∈ l → p a = true → (∀ x ∈ l, p x = true → x = a) →
      l.find? p = some a := by
  intro l
  induction l with
  | nil => intro a ha _ _; cases ha
  | cons b t ih =>
    intro a ha hpa huniq
    by_cases hb : p b = true
    · have hba : b = a := huniq b (List.mem_cons_self _ _) hb
      subst hba
      exact List.find?_cons_of_pos _ hb
    · rw [List.find?_cons_of_neg _ hb]
      have hat : a ∈ t := by
        rcases List.mem_cons.mp ha with h | h
        · subst h; exact absurd hpa hb
        · exact h
      exact ih a hat hpa (fun x hx hpx => huniq x (List.mem_cons_of_mem _ hx) hpx)

/-- The head of a list is a member. -/
theorem head?_mem {α : Type} {l : List α} {a : α} (h : l.head? = some a) : a ∈ l := by
  cases l with
  | nil => cases h
  | cons b t =>
    have hb : b = a := by simpa using h
    subst hb
    exact List.mem_cons_self _ _

namespace Lib

/-- A job whose id differs from the updated one is untouched by
replaceById. -/
theorem mem_replaceById_of_ne {jobs : QueueState} {jobId : String} {newJob j : Job}
    (hj : j ∈ jobs) (hne : ¬ j.id = jobId) : j ∈ replaceById jobs jobId newJob := by
  have h := List.mem_map_of_mem (fun x => if decide (x.id = jobId) then newJob else x) hj
  simpa [replaceById, hne] using h

/-- Every member of replaceById is the new job or an untouched old one. -/
theorem eq_or_mem_of_mem_replaceById {jobs : QueueState} {jobId : String} {newJob x : Job}
    (hx : x ∈ replaceById jobs jobId newJob) :
    x = newJob ∨ (x ∈ jobs ∧ ¬ x.id = jobId) := by
  unfold replaceById at hx
  rcases List.mem_map.mp hx with ⟨y, hy, hyx⟩
  by_cases h : y.id = jobId
  · left
    simp [h] at hyx
    exact hyx.symm
  · right
    simp [h] at hyx
    subst hyx
    exact ⟨hy, h⟩

/-- A succeeded job distinct in id from the updated row keeps its record
through replaceById, and remains the only record with its id provided it was
before. -/
theorem preserved_replaceById {jobs : QueueState} {J newJob : Job} {jobId : String}
    (hmem : J ∈ jobs) (hids : ∀ x ∈ jobs, x.id = J.id → x = J)
    (hJne : ¬ J.id = jobId) (hnew : newJob.id = jobId) :
    J ∈ replaceById jobs jobId newJob ∧
    ∀ x ∈ replaceById jobs jobId newJob, x.id = J.id → x = J := by
  constructor
  · exact mem_replaceById_of_ne hmem hJne
  · intro x hx hxid
    rcases eq_or_mem_of_mem_replaceById hx with h | ⟨hxj, _⟩
    · subst h
      exact absurd (hxid.symm.trans hnew) hJne
    · exact hids x hxj hxid

/-- The state produced by addJob is the old state or the old state with one
fresh job appended. -/
theorem addJob_state_cases (jobs : QueueState) (cfg : JobQueueConfig) (jobId : String)
    (ty : JobType) (p k : String) (now : Nat) :
    (addJob jobs cfg jobId ty p k now).2 = jobs ∨
    (addJob jobs cfg jobId ty p k now).2 = jobs ++ [mkJob jobId ty p k cfg now] := by
  unfold addJob
  cases hfind : findJobByIdempotencyKey jobs k with
  | none => right; rfl
  | some existingJob =>
    by_cases hst : existingJob.status = JobStatus.succeeded
    · left; simp [hst]
    · right; simp [hst]

end Lib

namespace El

/-- A row whose id differs from the updated one is untouched by
replaceById. -/
theorem row_mem_replaceById_of_ne {jobs : Store} {jobId : String} {newJob j : OutboxJob}
    (hj : j ∈ jobs) (hne : ¬ j.id = jobId) : j ∈ replaceById jobs jobId newJob := by
  have h := List.mem_map_of_mem (fun x => if decide (x.id = jobId) then newJob else x) hj
  simpa [replaceById, hne] using h

/-- Every member of replaceById is the new row or an untouched old one. -/
theorem row_eq_or_mem_of_mem_replaceById {jobs : Store} {jobId : String} {newJob x : OutboxJob}
    (hx : x ∈ replaceById jobs jobId newJob) :
    x = newJob ∨ (x ∈ jobs ∧ ¬ x.id = jobId) := by
  unfold replaceById at hx
  rcases List.mem_map.mp hx with ⟨y, hy, hyx⟩
  by_cases h : y.id = jobId
  · left
    simp [h] at hyx
    exact hyx.symm
  · right
    simp [h] at hyx
    subst hyx
    exact ⟨hy, h⟩

/-- A row whose id differs from the retried one is untouched by
updateJobForRetry. -/
theorem mem_updateJobForRetry_of_ne {jobs : Store} {jobId : String} {attempts nra : Nat}
    {em : Option String} {now : Nat} {j : OutboxJob}
    (hj : j ∈ jobs) (hne : ¬ j.id = jobId) :
    j ∈ updateJobForRetry jobs jobId attempts nra em now := by
  have h := List.mem_map_of_mem
    (fun x => if decide (x.id = jobId) then
      { x with
        status := JobStatus.queued
        attempts := attempts
        next_run_at := nra
        updated_at := now
        error_message := em
        last_attempt_at := some now }
      else x) hj
  simpa [updateJobForRetry, hne] using h

/-- Membership in insertByCreatedAt is membership in the inserted row or the
old list. -/
theorem mem_insertByCreatedAt {job x : OutboxJob} {l : List OutboxJob} :
    x ∈ insertByCreatedAt job l ↔ x = job ∨ x ∈ l := by
  induction l with
  | nil => simp [insertByCreatedAt]
  | cons k rest ih =>
    by_cases h : job.created_at ≤ k.created_at
    · simp [insertByCreatedAt, if_pos h]
    · simp only [insertByCreatedAt, if_neg h, List.mem_cons, ih]
      tauto

/-- insertByCreatedAt preserves sortedness by created_at. -/
theorem pairwise_insertByCreatedAt {job : OutboxJob} {l : List OutboxJob}
    (hl : l.Pairwise (fun a b => a.created_at ≤ b.created_at)) :
    (insertByCreatedAt job l).Pairwise (fun a b => a.created_at ≤ b.created_at) := by
  induction l with
  | nil => simp [insertByCreatedAt]
  | cons k rest ih =>
    rcases List.pairwise_cons.mp hl with ⟨hk, hrest⟩
    by_cases h : job.created_at ≤ k.created_at
    · simp only [insertByCreatedAt, if_pos h]
      refine List.pairwise_cons.mpr ⟨?_, hl⟩
      intro y hy
      rcases List.mem_cons.mp hy with hyk | hyr
      · subst hyk; exact h
      · exact le_trans h (hk y hyr)
    · simp only [insertByCreatedAt, if_neg h]
      refine List.pairwise_cons.mpr ⟨?_, ih hrest⟩
      intro y hy
      rcases mem_insertByCreatedAt.mp hy with hyj | hyr
      · subst hyj; exact Nat.le_of_not_le h
      · exact hk y hyr

/-- The insertion sort by created_at produces a sorted list. -/
theorem pairwise_sortByCreatedAt (l : List OutboxJob) :
    (sortByCreatedAt l).Pairwise (fun a b => a.created_at ≤ b.created_at) := by
  induction l with
  | nil => simp [sortByCreatedAt]
  | cons j rest ih => exact pairwise_insertByCreatedAt ih

/-- The insertion sort by created_at neither adds nor removes rows. -/
theorem mem_sortByCreatedAt {x : OutboxJob} {l : List OutboxJob} :
    x ∈ sortByCreatedAt l ↔ x ∈ l := by
  induction l with
  | nil => simp [sortByCreatedAt]
  | cons j rest ih => simp [sortByCreatedAt, mem_insertByCreatedAt, ih]

/-- Every row returned by the due-job selection is a stored row that is queued
and due. -/
theorem mem_findDue {jobs : Store} {now limit : Nat} {j : OutboxJob}
    (hj : j ∈ findDue jobs now limit) :
    j ∈ jobs ∧ j.status = JobStatus.queued ∧ j.next_run_at ≤ now := by
  unfold findDue at hj
  have hj2 := List.mem_of_mem_take hj
  rw [mem_sortByCreatedAt] at hj2
  rcases List.mem_filter.mp hj2 with ⟨hmem, hp⟩
  simp only [Bool.and_eq_true, decide_eq_true_eq] at hp
  exact ⟨hmem, hp.1, hp.2⟩

/-- COUNT(*) of a status group over one more row. -/
theorem countByStatus_cons (j : OutboxJob) (t : Store) (st : JobStatus) :
    countByStatus (j :: t) st = (if j.status = st then 1 else 0) + countByStatus t st := by
  unfold countByStatus
  rw [List.filter_cons]
  by_cases h : j.status = st
  · simp [h, Nat.add_comm]
  · simp [h]

/-- The five status groups partition the rows. -/
theorem countByStatus_partition (jobs : Store) :
    countByStatus jobs JobStatus.queued + countByStatus jobs JobStatus.running
      + countByStatus jobs JobStatus.succeeded + countByStatus jobs JobStatus.failed
      + countByStatus jobs JobStatus.dead = jobs.length := by
  induction jobs with
  | nil => rfl
  | cons j t ih =>
    rw [countByStatus_cons, countByStatus_cons, countByStatus_cons, countByStatus_cons,
      countByStatus_cons, List.length_cons]
    cases hst : j.status <;> simp [hst] <;> omega

end El

namespace Lib

/-- One getStats loop iteration leaves the total untouched. -/
theorem bumpStat_total (s : JobStats) (st : JobStatus) : (bumpStat s st).total = s.total := by
  cases st <;> rfl

/-- One getStats loop iteration grows the bucket sum by one. -/
theorem bumpStat_sum (s : JobStats) (st : JobStatus) :
    (bumpStat s st).queued + (bumpStat s st).running + (bumpStat s st).succeeded
      + (bumpStat s st).failed + (bumpStat s st).dead
    = s.queued + s.running + s.succeeded + s.failed + s.dead + 1 := by
  cases st <;> simp [bumpStat] <;> omega

/-- The getStats loop leaves the total untouched. -/
theorem foldl_bumpStat_total (jobs : List Job) (s : JobStats) :
    (jobs.foldl (fun stats j => bumpStat stats j.status) s).total = s.total := by
  induction jobs generalizing s with
  | nil => rfl
  | cons j t ih => rw [List.foldl_cons, ih, bumpStat_total]

/-- The getStats loop grows the bucket sum by the number of jobs visited. -/
theorem foldl_bumpStat_sum (jobs : List Job) (s : JobStats) :
    (jobs.foldl (fun stats j => bumpStat stats j.status) s).queued
      + (jobs.foldl (fun stats j => bumpStat stats j.status) s).running
      + (jobs.foldl (fun stats j => bumpStat stats j.status) s).succeeded
      + (jobs.foldl (fun stats j => bumpStat stats j.status) s).failed
      + (jobs.foldl (fun stats j => bumpStat stats j.status) s).dead
    = s.queued + s.running + s.succeeded + s.failed + s.dead + jobs.length := by
  induction jobs generalizing s with
  | nil => simp
  | cons j t ih =>
    rw [List.foldl_cons, ih (bumpStat s j.status), bumpStat_sum, List.length_cons]
    omega

end Lib

/-- C10: getStats satisfies total = queued + running + succeeded + failed +
dead, with every stored job counted in exactly one status bucket and the total
equal to the number of stored jobs, in both queue implementations. -/
theorem c10_stats_partition (jobs : Lib.QueueState) (rows : El.Store) :
    (Lib.getStats jobs).total
        = (Lib.getStats jobs).queued + (Lib.getStats jobs).running
          + (Lib.getStats jobs).succeeded + (Lib.getStats jobs).failed
          + (Lib.getStats jobs).dead ∧
    (Lib.getStats jobs).total = jobs.length ∧
    (El.getStats rows).total
        = (El.getStats rows).queued + (El.getStats rows).running
          + (El.getStats rows).succeeded + (El.getStats rows).failed
          + (El.getStats rows).dead ∧
    (El.getStats rows).total = rows.length := by
  refine ⟨?_, ?_, rfl, ?_⟩
  · unfold Lib.getStats
    rw [Lib.foldl_bumpStat_total, Lib.foldl_bumpStat_sum]
    simp
  · unfold Lib.getStats
    rw [Lib.foldl_bumpStat_total]
  · exact El.countByStatus_partition rows

/-- C8: the due-job selection (the SQL issued by getNextJobToProcess, with its
LIMIT generalized to the spec findDue) returns only stored queued rows whose
next_run_at is not after the query time, sorted by created_at ascending,
capped at the limit; and in the concrete two-row store where A was created
before B and both are due, the selection with limit one returns A. -/
theorem c8_findDue_selection :
    (∀ (jobs : El.Store) (now limit : Nat), ∀ j ∈ El.findDue jobs now limit,
      j ∈ jobs ∧ j.status = JobStatus.queued ∧ j.next_run_at ≤ now) ∧
    (∀ (jobs : El.Store) (now limit : Nat),
      (El.findDue jobs now limit).Pairwise (fun a b => a.created_at ≤ b.created_at)) ∧
    (∀ (jobs : El.Store) (now limit : Nat), (El.findDue jobs now limit).length ≤ limit) ∧
    El.findDue [elJobB, elJobA] 10 1 = [elJobA] := by
  refine ⟨?_, ?_, ?_, by decide⟩
  · intro jobs now limit j hj
    exact El.mem_findDue hj
  · intro jobs now limit
    unfold El.findDue
    exact List.Pairwise.sublist (List.take_sublist _ _) (El.pairwise_sortByCreatedAt _)
  · intro jobs now limit
    unfold El.findDue
    rw [List.length_take]
    exact min_le_left _ _

/-- C8 witness: the membership part of the selection theorem applied to the
concrete two-row store. -/
theorem c8_findDue_selection_witness :
    elJobA ∈ [elJobB, elJobA] ∧ elJobA.status = JobStatus.queued ∧ elJobA.next_run_at ≤ 10 :=
  c8_findDue_selection.1 [elJobB, elJobA] 10 1 elJobA (by decide)

/-- C7: the backoff table is the strictly increasing six-entry schedule 1m,
5m, 15m, 30m, 1h, 2h; a retryable failure of a due job schedules its
next_run_at strictly after the previously scheduled time; and on a retryable
failure the job goes dead exactly when its attempts have exhausted the
table. -/
theorem c7_backoff_monotone :
    El.backoffSchedule = [60, 300, 900, 1800, 3600, 7200] ∧
    El.backoffSchedule.Pairwise (fun a b => a < b) ∧
    (∀ (job : El.OutboxJob) (result : El.ProcessResult) (now : Nat),
      job.next_run_at ≤ now → result.success = false → result.retryable = true →
      job.attempts < El.backoffSchedule.length →
      job.next_run_at < (El.applyProcessResult job result now).next_run_at) ∧
    (∀ (job : El.OutboxJob) (result : El.ProcessResult) (now : Nat),
      result.success = false → result.retryable = true →
      ((El.applyProcessResult job result now).status = JobStatus.dead
        ↔ El.backoffSchedule.length ≤ job.attempts)) := by
  refine ⟨rfl, by decide, ?_, ?_⟩
  · intro job result now hdue hsf hr hlt
    have hsched : ∀ a, a < 6 → 60 ≤ El.backoffSchedule.getD a 0 := by decide
    have h60 : 60 ≤ El.backoffSchedule.getD ((job.attempts + 1) - 1) 0 := by
      have hlt6 : job.attempts < 6 := by simpa [El.backoffSchedule] using hlt
      simpa using hsched job.attempts hlt6
    have hpos : 0 < El.backoffSchedule.getD ((job.attempts + 1) - 1) 0 * 1000 :=
      Nat.mul_pos (lt_of_lt_of_le (by norm_num) h60) (by norm_num)
    unfold El.applyProcessResult
    rw [if_neg (by simp [hsf]), if_pos (by simp [hr, hlt])]
    show job.next_run_at < now + El.backoffSchedule.getD ((job.attempts + 1) - 1) 0 * 1000
    omega
  · intro job result now hsf hr
    by_cases hlt : job.attempts < El.backoffSchedule.length
    · unfold El.applyProcessResult
      rw [if_neg (by simp [hsf]), if_pos (by simp [hr, hlt])]
      simp
      omega
    · unfold El.applyProcessResult
      rw [if_neg (by simp [hsf]), if_neg (by simp [hlt])]
      simp
      omega

/-- C7 witness: the per-attempt parts of the backoff theorem at a concrete
due running row with attempts 0 and a retryable 503 failure at time 5. -/
theorem c7_backoff_monotone_witness :
    c7Job.next_run_at < (El.applyProcessResult c7Job c7Result 5).next_run_at ∧
    ((El.applyProcessResult c7Job c7Result 5).status = JobStatus.dead
      ↔ El.backoffSchedule.length ≤ c7Job.attempts) :=
  ⟨c7_backoff_monotone.2.2.1 c7Job c7Result 5 (by decide) (by decide) (by decide) (by decide),
   c7_backoff_monotone.2.2.2 c7Job c7Result 5 (by decide) (by decide)⟩

/-- C6: under the dispatch guards of the code (a capacity check before every
handoff and an early return on an id already in the running set), every
scheduler state reachable from an idle state keeps at most concurrency job
ids in the running set and never holds the same id twice; the default
concurrency is 2. -/
theorem c6_concurrency_bound :
    Lib.defaultConfig.concurrency = 2 ∧
    ∀ (cfg : Lib.JobQueueConfig) (jobs0 : Lib.QueueState) (s : SchedState),
      SchedReachable cfg ⟨jobs0, []⟩ s →
      s.running.length ≤ cfg.concurrency ∧ s.running.Nodup := by
  refine ⟨rfl, ?_⟩
  intro cfg jobs0 s h
  induction h with
  | refl => simp
  | step t u hreach hstep ih =>
    cases hstep with
    | start job now hmem hq hdue hcap hnew =>
      constructor
      · simpa using hcap
      · exact List.nodup_cons.mpr ⟨hnew, ih.2⟩
    | finish job outcome now jitter hmem hrun =>
      constructor
      · exact le_trans (List.Sublist.length_le (List.erase_sublist _ _)) ih.1
      · exact ih.2.erase _

/-- C6 witness: the invariant at the idle initial state with the default
configuration. -/
theorem c6_concurrency_bound_witness :
    (SchedState.mk [] []).running.length ≤ Lib.defaultConfig.concurrency ∧
    (SchedState.mk [] []).running.Nodup :=
  c6_concurrency_bound.2 Lib.defaultConfig [] (SchedState.mk [] []) (SchedReachable.refl _)

/-- C1 (amended): in the persistent queue, where the schema constraint
idempotency_key UNIQUE and the pre-insert lookup keep the key unique in the
store, an enqueue with the key of a stored succeeded job J returns the id of
J and inserts nothing, and a second enqueue returns the same id on the
unchanged store. -/
theorem c1_enqueue_after_succeeded (jobs : El.Store) (J : El.OutboxJob) (k : String)
    (newId : String) (ty : JobType) (p : String) (st : JobStatus) (att nra now : Nat)
    (hmem : J ∈ jobs) (hkey : J.idempotency_key = k)
    (hst : J.status = JobStatus.succeeded)
    (huniq : ∀ x ∈ jobs, x.idempotency_key = k → x = J) :
    (El.addJob jobs newId ty p k st att nra now).1.jobId = J.id ∧
    (El.addJob jobs newId ty p k st att nra now).2 = jobs ∧
    (El.addJob (El.addJob jobs newId ty p k st att nra now).2 newId ty p k st att nra
        now).1.jobId = J.id := by
  have hfind : El.getJobByIdempotencyKey jobs k = some J := by
    unfold El.getJobByIdempotencyKey
    apply find?_eq_some_of_unique
    · exact hmem
    · simpa using hkey
    · intro x hx hpx
      exact huniq x hx (by simpa using hpx)
  refine ⟨?_, ?_, ?_⟩ <;> simp [El.addJob, hfind]

/-- C1 witness: the theorem at a one-row store holding a succeeded job. -/
theorem c1_enqueue_after_succeeded_witness :
    (El.addJob [elSucceededJob] "N" JobType.create_label "p" "ks" JobStatus.queued 0 0
        7).1.jobId = elSucceededJob.id ∧
    (El.addJob [elSucceededJob] "N" JobType.create_label "p" "ks" JobStatus.queued 0 0
        7).2 = [elSucceededJob] ∧
    (El.addJob
        (El.addJob [elSucceededJob] "N" JobType.create_label "p" "ks" JobStatus.queued 0 0 7).2
        "N" JobType.create_label "p" "ks" JobStatus.queued 0 0 7).1.jobId
      = elSucceededJob.id :=
  c1_enqueue_after_succeeded [elSucceededJob] elSucceededJob "ks" "N" JobType.create_label "p"
    JobStatus.queued 0 0 7 (by decide) (by decide) (by decide) (by decide)

/-- C1 counterexample: in the in-memory queue the claim fails as stated.  The
reachable state c1State4 (two enqueues of the same key while the first job
was still pending, then a failing run of the first and a succeeding run of
the second) holds a succeeded job with key label_O1, yet a further enqueue
with that key finds the earlier, non-succeeded job first, creates a third job
and returns a fresh id. -/
theorem c1_counterexample :
    ∃ J ∈ c1State4, J.status = JobStatus.succeeded ∧ J.idempotencyKey = c1Key ∧
      (Lib.addJob c1State4 Lib.defaultConfig "job3" JobType.create_label "p1" c1Key 4).1
        ≠ J.id ∧
      (Lib.addJob c1State4 Lib.defaultConfig "job3" JobType.create_label "p1" c1Key 4).2.length
        = c1State4.length + 1 := by
  decide

/-- C2 (amended): in the persistent queue, an enqueue with the key of a
stored non-terminal job J inserts nothing and returns the id of J (the
electron addJob short-circuits on any existing key).  The in-memory queue
does not have this property: see the counterexample. -/
theorem c2_enqueue_existing_returns_id (jobs : El.Store) (J : El.OutboxJob) (k : String)
    (newId : String) (ty : JobType) (p : String) (st : JobStatus) (att nra now : Nat)
    (hmem : J ∈ jobs) (hkey : J.idempotency_key = k)
    (hns : J.status ≠ JobStatus.succeeded) (hnd : J.status ≠ JobStatus.dead)
    (huniq : ∀ x ∈ jobs, x.idempotency_key = k → x = J) :
    (El.addJob jobs newId ty p k st att nra now).1.jobId = J.id ∧
    (El.addJob jobs newId ty p k st att nra now).2 = jobs := by
  have hfind : El.getJobByIdempotencyKey jobs k = some J := by
    unfold El.getJobByIdempotencyKey
    apply find?_eq_some_of_unique
    · exact hmem
    · simpa using hkey
    · intro x hx hpx
      exact huniq x hx (by simpa using hpx)
  refine ⟨?_, ?_⟩ <;> simp [El.addJob, hfind]

/-- C2 witness: the theorem at a one-row store holding a queued job. -/
theorem c2_enqueue_existing_returns_id_witness :
    (El.addJob [elJobA] "N" JobType.create_label "p" "ka" JobStatus.queued 0 0 7).1.jobId
      = elJobA.id ∧
    (El.addJob [elJobA] "N" JobType.create_label "p" "ka" JobStatus.queued 0 0 7).2
      = [elJobA] :=
  c2_enqueue_existing_returns_id [elJobA] elJobA "ka" "N" JobType.create_label "p"
    JobStatus.queued 0 0 7 (by decide) (by decide) (by decide) (by decide) (by decide)

/-- C2 counterexample: the in-memory addJob creates a second job when the
stored job with the same key is still queued (it only short-circuits on
succeeded), returning a fresh id instead of the pending id. -/
theorem c2_counterexample :
    ∃ J ∈ c2State, J.idempotencyKey = "k1" ∧ J.status ≠ JobStatus.succeeded ∧
      J.status ≠ JobStatus.dead ∧
      (Lib.addJob c2State Lib.defaultConfig "job2" JobType.create_label "p1" "k1" 1).1
        ≠ J.id ∧
      (Lib.addJob c2State Lib.defaultConfig "job2" JobType.create_label "p1" "k1" 1).2.length
        = c2State.length + 1 := by
  decide

/-- C3 counterexample: in the in-memory queue a retryable failure (503, which
the error taxonomy classifies retryable) with attempts still below the cap
marks the job failed, not queued. -/
theorem c3_counterexample :
    El.isRetryableError "503 Service Unavailable" = true ∧
    libFreshJob.attempts + 1 < libFreshJob.maxAttempts ∧
    (Lib.processJobOutcome Lib.defaultConfig libFreshJob
        (Lib.ExecOutcome.err "503 Service Unavailable") 5 0).status = JobStatus.failed ∧
    (Lib.processJobOutcome Lib.defaultConfig libFreshJob
        (Lib.ExecOutcome.err "503 Service Unavailable") 5 0).status ≠ JobStatus.queued := by
  decide

/-- C3 (amended): in the persistent queue, attempts never exceeds the table
length; on a retryable failure the row goes dead exactly when attempts has
reached the cap, and below the cap it is re-queued with attempts incremented
by one. -/
theorem c3_attempts_capped (job : El.OutboxJob) (result : El.ProcessResult) (now : Nat)
    (hcap : job.attempts ≤ El.backoffSchedule.length) :
    (El.applyProcessResult job result now).attempts ≤ El.backoffSchedule.length ∧
    (result.success = false → result.retryable = true →
      (((El.applyProcessResult job result now).status = JobStatus.dead
          ↔ El.backoffSchedule.length ≤ job.attempts) ∧
        (job.attempts < El.backoffSchedule.length →
          (El.applyProcessResult job result now).status = JobStatus.queued ∧
          (El.applyProcessResult job result now).attempts = job.attempts + 1))) := by
  by_cases hs : result.success = true
  · constructor
    · unfold El.applyProcessResult
      rw [if_pos hs]
      exact hcap
    · intro hsf
      rw [hsf] at hs
      exact absurd hs (by decide)
  · by_cases hb : (result.retryable && decide (job.attempts < El.backoffSchedule.length)) = true
    · have hlt : job.attempts < El.backoffSchedule.length := by
        rcases Bool.and_eq_true_iff.mp hb with ⟨_, hdec⟩
        simpa using hdec
      constructor
      · unfold El.applyProcessResult
        rw [if_neg hs, if_pos hb]
        show job.attempts + 1 ≤ El.backoffSchedule.length
        omega
      · intro hsf hr
        refine ⟨?_, ?_⟩
        · unfold El.applyProcessResult
          rw [if_neg hs, if_pos hb]
          simp
          omega
        · intro hlt2
          unfold El.applyProcessResult
          rw [if_neg hs, if_pos hb]
          exact ⟨rfl, rfl⟩
    · constructor
      · unfold El.applyProcessResult
        rw [if_neg hs, if_neg hb]
        exact hcap
      · intro hsf hr
        have hge : El.backoffSchedule.length ≤ job.attempts := by
          rw [hr] at hb
          simp at hb
          omega
        refine ⟨?_, ?_⟩
        · unfold El.applyProcessResult
          rw [if_neg hs, if_neg hb]
          simpa using hge
        · intro hlt
          omega

/-- C3 witness: the theorem at a concrete row with attempts 0 and a retryable
503 failure. -/
theorem c3_attempts_capped_witness :
    (El.applyProcessResult c7Job c7Result 5).attempts ≤ El.backoffSchedule.length ∧
    (c7Result.success = false → c7Result.retryable = true →
      (((El.applyProcessResult c7Job c7Result 5).status = JobStatus.dead
          ↔ El.backoffSchedule.length ≤ c7Job.attempts) ∧
        (c7Job.attempts < El.backoffSchedule.length →
          (El.applyProcessResult c7Job c7Result 5).status = JobStatus.queued ∧
          (El.applyProcessResult c7Job c7Result 5).attempts = c7Job.attempts + 1))) :=
  c3_attempts_capped c7Job c7Result 5 (by decide)

/-- C4 counterexample: the in-memory queue has no retryability classifier; a
job whose handler throws 404 Not Found is marked failed after its first
attempt (entering the retry path), not dead. -/
theorem c4_counterexample :
    (Lib.processJobOutcome Lib.defaultConfig libFreshJob
        (Lib.ExecOutcome.err "404 Not Found") 5 0).status = JobStatus.failed ∧
    (Lib.processJobOutcome Lib.defaultConfig libFreshJob
        (Lib.ExecOutcome.err "404 Not Found") 5 0).status ≠ JobStatus.dead := by
  decide

/-- C4 (amended): in the persistent queue, a handler failure whose message is
classified non-retryable sends the job straight to dead, with its attempts
counter untouched, and the dead row is never returned by the due-job
selection again. -/
theorem c4_nonretryable_dead (job : El.OutboxJob) (message : String) (now : Nat)
    (hnr : El.isRetryableError message = false) :
    (El.applyProcessResult job (El.handlerFailure message) now).status = JobStatus.dead ∧
    (El.applyProcessResult job (El.handlerFailure message) now).attempts = job.attempts ∧
    ∀ (jobs : El.Store) (later limit : Nat),
      El.applyProcessResult job (El.handlerFailure message) now
        ∉ El.findDue jobs later limit := by
  have hs : ¬(El.handlerFailure message).success = true := by
    simp [El.handlerFailure]
  have hcond : ¬((El.handlerFailure message).retryable
      && decide (job.attempts < El.backoffSchedule.length)) = true := by
    simp [El.handlerFailure, hnr]
  have hdead : (El.applyProcessResult job (El.handlerFailure message) now).status
      = JobStatus.dead := by
    unfold El.applyProcessResult
    rw [if_neg hs, if_neg hcond]
  refine ⟨hdead, ?_, ?_⟩
  · unfold El.applyProcessResult
    rw [if_neg hs, if_neg hcond]
  · intro jobs later limit hmem
    have hq := (El.mem_findDue hmem).2.1
    rw [hdead] at hq
    exact absurd hq (by decide)

/-- C4 witness: the theorem at a concrete queued row and the message 404 Not
Found, which the classifier marks non-retryable. -/
theorem c4_nonretryable_dead_witness :
    El.isRetryableError "404 Not Found" = false ∧
    (El.applyProcessResult elJobA (El.handlerFailure "404 Not Found") 5).status
      = JobStatus.dead ∧
    (El.applyProcessResult elJobA (El.handlerFailure "404 Not Found") 5).attempts
      = elJobA.attempts ∧
    El.applyProcessResult elJobA (El.handlerFailure "404 Not Found") 5
      ∉ El.findDue [] 9 1 :=
  have h := c4_nonretryable_dead elJobA "404 Not Found" 5 (by decide)
  ⟨by decide, h.1, h.2.1, h.2.2 [] 9 1⟩

/-- C5 counterexample: the in-memory retryJob refuses a dead job (it only
accepts status failed), returning false and leaving the state unchanged,
while the claim demands success exactly on dead. -/
theorem c5_counterexample :
    libDeadJob.status = JobStatus.dead ∧
    (Lib.retryJob [libDeadJob] Lib.defaultConfig "job1" 5 0).1 = false ∧
    (Lib.retryJob [libDeadJob] Lib.defaultConfig "job1" 5 0).2 = [libDeadJob] := by
  decide

/-- C5 (amended): the persistent retryJob succeeds exactly on a dead job,
resetting it to queued with attempts 0 and next_run_at = now (hence not after
now), leaving every other row in place; any other status is rejected as not
retryable with the store unchanged; a missing id reports not found. -/
theorem c5_retryJob_characterization (jobs : El.Store) (jobId : String) (now : Nat)
    (huniq : ∀ x ∈ jobs, ∀ y ∈ jobs, x.id = y.id → x = y) :
    ((∀ j ∈ jobs, j.id ≠ jobId) →
      El.retryJob jobs jobId now = (El.RetryJobResult.notFound, jobs)) ∧
    ∀ J ∈ jobs, J.id = jobId →
      (J.status = JobStatus.dead →
        (El.retryJob jobs jobId now).1 = El.RetryJobResult.ok ∧
        { J with
          status := JobStatus.queued
          attempts := 0
          next_run_at := now
          updated_at := now
          error_message := none
          last_attempt_at := some now } ∈ (El.retryJob jobs jobId now).2 ∧
        (∀ x ∈ (El.retryJob jobs jobId now).2, x.id ≠ jobId → x ∈ jobs)) ∧
      (J.status ≠ JobStatus.dead →
        El.retryJob jobs jobId now = (El.RetryJobResult.notRetryable, jobs)) := by
  constructor
  · intro habs
    have hnone : El.getJobById jobs jobId = none := by
      unfold El.getJobById
      rw [List.find?_eq_none]
      intro x hx
      simp [habs x hx]
    unfold El.retryJob
    rw [hnone]
  · intro J hJ hid
    have hfind : El.getJobById jobs jobId = some J := by
      unfold El.getJobById
      apply find?_eq_some_of_unique
      · exact hJ
      · simpa using hid
      · intro x hx hpx
        exact huniq x hx J hJ ((by simpa using hpx : x.id = jobId).trans hid.symm)
    constructor
    · intro hdead
      have hstate : (El.retryJob jobs jobId now).2
          = El.updateJobForRetry jobs jobId 0 now none now := by
        simp [El.retryJob, hfind, hdead]
      refine ⟨?_, ?_, ?_⟩
      · simp [El.retryJob, hfind, hdead]
      · rw [hstate]
        have h := List.mem_map_of_mem
          (fun j => if decide (j.id = jobId) then
            { j with
              status := JobStatus.queued
              attempts := 0
              next_run_at := now
              updated_at := now
              error_message := none
              last_attempt_at := some now }
            else j) hJ
        simpa [El.updateJobForRetry, hid] using h
      · intro x hx hxne
        rw [hstate] at hx
        unfold El.updateJobForRetry at hx
        rcases List.mem_map.mp hx with ⟨y, hy, hyx⟩
        by_cases hyid : y.id = jobId
        · rw [if_pos (by simp [hyid])] at hyx
          subst hyx
          exact absurd hyid hxne
        · rw [if_neg (by simp [hyid])] at hyx
          subst hyx
          exact hy
    · intro hnd
      simp [El.retryJob, hfind, hnd]

/-- C5 witness: the dead branch of the characterization at a one-row store
holding a dead job. -/
theorem c5_retryJob_characterization_witness :
    (El.retryJob [elDeadJob] "D" 7).1 = El.RetryJobResult.ok ∧
    { elDeadJob with
      status := JobStatus.queued
      attempts := 0
      next_run_at := 7
      updated_at := 7
      error_message := none
      last_attempt_at := some 7 } ∈ (El.retryJob [elDeadJob] "D" 7).2 :=
  have h := (c5_retryJob_characterization [elDeadJob] "D" 7 (by decide)).2 elDeadJob
    (by decide) (by decide)
  ⟨(h.1 (by decide)).1, (h.1 (by decide)).2.1⟩

/-- The outcome update never changes the id of the in-memory job. -/
theorem Lib.processJobOutcome_id (cfg : Lib.JobQueueConfig) (job : Lib.Job)
    (outcome : Lib.ExecOutcome) (now jitter : Nat) :
    (Lib.processJobOutcome cfg job outcome now jitter).id = job.id := by
  cases outcome with
  | ok r => rfl
  | err m =>
    unfold Lib.processJobOutcome
    dsimp only
    by_cases h : job.maxAttempts ≤ job.attempts + 1
    · rw [if_pos h]
    · rw [if_neg h]

/-- C9: once a job is succeeded, no queue operation changes its record: an
enqueue (with the same key or any other), retryJob, a dispatch/execution
pass, and the dead-job purge all keep the succeeded record intact, in both
implementations; the in-memory conjuncts also assert that the record carrying
its id is still exactly that record, so status, attempts and result are
unchanged. -/
theorem c9_succeeded_immutable (jobs : Lib.QueueState) (J : Lib.Job)
    (cfg : Lib.JobQueueConfig)
    (hmem : J ∈ jobs) (hst : J.status = JobStatus.succeeded)
    (hids : ∀ x ∈ jobs, x.id = J.id → x = J) :
    (∀ (newId : String) (ty : JobType) (p k : String) (now : Nat), newId ≠ J.id →
      J ∈ (Lib.addJob jobs cfg newId ty p k now).2 ∧
      ∀ x ∈ (Lib.addJob jobs cfg newId ty p k now).2, x.id = J.id → x = J) ∧
    (∀ (jobId : String) (now jitter : Nat),
      J ∈ (Lib.retryJob jobs cfg jobId now jitter).2 ∧
      ∀ x ∈ (Lib.retryJob jobs cfg jobId now jitter).2, x.id = J.id → x = J) ∧
    (∀ (jobId : String) (outcome : Lib.ExecOutcome) (now jitter : Nat),
      J ∈ Lib.processStep jobs cfg jobId outcome now jitter ∧
      ∀ x ∈ Lib.processStep jobs cfg jobId outcome now jitter, x.id = J.id → x = J) ∧
    (J ∈ (Lib.clearDeadJobs jobs).2 ∧
      ∀ x ∈ (Lib.clearDeadJobs jobs).2, x.id = J.id → x = J) ∧
    (∀ (rows : El.Store) (K : El.OutboxJob), K ∈ rows → K.status = JobStatus.succeeded →
      (∀ x ∈ rows, x.id = K.id → x = K) →
      (∀ (jobId : String) (now : Nat), K ∈ (El.retryJob rows jobId now).2) ∧
      (∀ (result : El.ProcessResult) (now : Nat),
        K ∈ El.processNextJobStep rows result now) ∧
      K ∈ (El.clearDeadJobs rows).2 ∧
      (∀ (newId : String) (ty : JobType) (p k : String) (st : JobStatus) (att nra now : Nat),
        K ∈ (El.addJob rows newId ty p k st att nra now).2)) := by
  refine ⟨?_, ?_, ?_, ?_, ?_⟩
  · intro newId ty p k now hne
    rcases Lib.addJob_state_cases jobs cfg newId ty p k now with hcase | hcase <;> rw [hcase]
    · exact ⟨hmem, hids⟩
    · constructor
      · exact List.mem_append_left _ hmem
      · intro x hx hxid
        rcases List.mem_append.mp hx with hx1 | hx2
        · exact hids x hx1 hxid
        · have hxeq : x = Lib.mkJob newId ty p k cfg now := by simpa using hx2
          subst hxeq
          exact absurd hxid hne
  · intro jobId now jitter
    cases hfind : jobs.find? (fun j => decide (j.id = jobId)) with
    | none =>
      simp only [Lib.retryJob, hfind]
      exact ⟨hmem, hids⟩
    | some job =>
      have hjmem : job ∈ jobs := List.mem_of_find?_eq_some hfind
      have hjid : job.id = jobId := by simpa using List.find?_some hfind
      by_cases hjf : job.status = JobStatus.failed
      · have hJne : ¬ J.id = jobId := by
          intro heq
          have hj : job = J := hids job hjmem (hjid.trans heq.symm)
          rw [hj, hst] at hjf
          exact absurd hjf (by decide)
        by_cases hma : job.maxAttempts ≤ job.attempts
        · simp only [Lib.retryJob, hfind]
          rw [if_pos hjf, if_pos hma]
          exact Lib.preserved_replaceById hmem hids hJne hjid
        · simp only [Lib.retryJob, hfind]
          rw [if_pos hjf, if_neg hma]
          exact Lib.preserved_replaceById hmem hids hJne hjid
      · simp only [Lib.retryJob, hfind]
        rw [if_neg hjf]
        exact ⟨hmem, hids⟩
  · intro jobId outcome now jitter
    cases hfind : jobs.find? (fun j => decide (j.id = jobId)) with
    | none =>
      simp only [Lib.processStep, hfind]
      exact ⟨hmem, hids⟩
    | some job =>
      have hjmem : job ∈ jobs := List.mem_of_find?_eq_some hfind
      have hjid : job.id = jobId := by simpa using List.find?_some hfind
      by_cases hc : job.status = JobStatus.queued ∧ job.nextRunAt ≤ now
      · have hJne : ¬ J.id = jobId := by
          intro heq
          have hj : job = J := hids job hjmem (hjid.trans heq.symm)
          have := hc.1
          rw [hj, hst] at this
          exact absurd this (by decide)
        simp only [Lib.processStep, hfind]
        rw [if_pos hc]
        exact Lib.preserved_replaceById hmem hids hJne
          ((Lib.processJobOutcome_id cfg job outcome now jitter).trans hjid)
      · simp only [Lib.processStep, hfind]
        rw [if_neg hc]
        exact ⟨hmem, hids⟩
  · constructor
    · exact List.mem_filter.mpr ⟨hmem, by simp [hst]⟩
    · intro x hx hxid
      exact hids x (List.mem_filter.mp hx).1 hxid
  · intro rows K hK hKst hKids
    refine ⟨?_, ?_, ?_, ?_⟩
    · intro jobId now
      cases hfind : El.getJobById rows jobId with
      | none =>
        simp only [El.retryJob, hfind]
        exact hK
      | some job =>
        have hjmem : job ∈ rows := List.mem_of_find?_eq_some hfind
        have hjid : job.id = jobId := by simpa using List.find?_some hfind
        by_cases hjd : job.status = JobStatus.dead
        · have hKne : ¬ K.id = jobId := by
            intro heq
            have hj : job = K := hKids job hjmem (hjid.trans heq.symm)
            rw [hj, hKst] at hjd
            exact absurd hjd (by decide)
          simp only [El.retryJob, hfind]
          rw [if_pos hjd]
          exact El.mem_updateJobForRetry_of_ne hK hKne
        · simp only [El.retryJob, hfind]
          rw [if_neg hjd]
          exact hK
    · intro result now
      cases hsel : El.getNextJobToProcess rows now with
      | none =>
        simp only [El.processNextJobStep, hsel]
        exact hK
      | some job =>
        have hjdue : job ∈ El.findDue rows now 1 :=
          head?_mem (by simpa [El.getNextJobToProcess] using hsel)
        rcases El.mem_findDue hjdue with ⟨hjmem, hjq, _⟩
        have hKne : ¬ K.id = job.id := by
          intro heq
          have hj : job = K := hKids job hjmem heq.symm
          rw [hj, hKst] at hjq
          exact absurd hjq (by decide)
        simp only [El.processNextJobStep, hsel]
        exact El.row_mem_replaceById_of_ne hK hKne
    · exact List.mem_filter.mpr ⟨hK, by simp [hKst]⟩
    · intro newId ty p k st att nra now
      cases hfind : El.getJobByIdempotencyKey rows k with
      | none =>
        simp only [El.addJob, hfind]
        exact List.mem_append_left _ hK
      | some existingJob =>
        simp only [El.addJob, hfind]
        exact hK

/-- C9 witness: the purge conjunct of the theorem at a one-job state holding
a succeeded job. -/
theorem c9_succeeded_immutable_witness :
    libSucceededJob ∈ (Lib.clearDeadJobs [libSucceededJob]).2 :=
  ((c9_succeeded_immutable [libSucceededJob] libSucceededJob Lib.defaultConfig (by decide)
      (by decide) (by decide)).2.2.2.1).1
